import Mathlib

/-!
# Verification of the bucketed streaming deduplication engine

Shallow embedding of the deduplication core of the `bicing-barcelona-ml`
repository:

* `src/gold/dedup_gold_global_by_bucket.py` — the bucket router
  (`bucket_id_from_station_id`, `append_to_bucket`, the row-group loop of
  `main`), the per-shard deduplicator (`dedup_bucket_file`) and the
  reassembler (`concat_parts_to_one`).
* `src/gold/dedup_gold_by_parts.py` — the schema normalizer
  (`TARGET_FIELDS`, `ensure_all_columns_and_cast`,
  `dedup_table_with_pandas_keep_first`) and its driving `main`.

A table row is embedded with its two key columns (`station_id`,
`time_hour`, both nullable int64/timestamp, embedded as `Option Int`)
plus an opaque `payload` standing for the remaining non-key columns.
Arrow's integer modulo `pc.mod` is embedded as `Int.emod`; the repository
only ever feeds it nonnegative station ids, on which every modulo
convention agrees.
-/

open scoped List

namespace Bicing

/-- `N_BUCKETS = 64` from `dedup_gold_global_by_bucket.py`. -/
def N_BUCKETS : Nat := 64

/-- `KEYS = ["station_id", "time_hour"]`: the global dedup key columns. -/
def KEYS : List String := ["station_id", "time_hour"]

/-- One row of the gold table: the two Composite-Key columns (nullable, as
int64/timestamp columns in Arrow are) and an opaque payload standing for
all remaining (non-key) columns of the row. -/
structure Row where
  station_id : Option Int
  time_hour : Option Int
  payload : Int
deriving DecidableEq, Repr

/-- The Composite Key of a row: the `(station_id, time_hour)` pair. -/
def rowKey (r : Row) : Option Int × Option Int := (r.station_id, r.time_hour)

/-- `bucket_id_from_station_id`: `pc.mod(arr_station, N_BUCKETS)` on an
int64 column. A null station id propagates to a null bucket id, exactly as
Arrow's `pc.mod` does. -/
def bucket_id_from_station_id (sid : Option Int) : Option Int :=
  sid.map (fun s => s % (N_BUCKETS : Int))

/-- The per-row mask `pc.equal(b_ids, b)` used by `main`'s router loop;
`table.filter` keeps a row iff the mask is `true` there (null mask entries
are dropped, which this boolean-valued embedding reproduces: a null bucket
id is never equal to `some b`). -/
def maskB (b : Nat) (r : Row) : Bool :=
  decide (bucket_id_from_station_id r.station_id = some ((b : Nat) : Int))

/-- The state of the router pass: the dictionary of open `ParquetWriter`s
(represented by the set of bucket ids that have one) and the rows written
so far to each bucket file. -/
structure RouterState where
  writers : List Nat
  fileRows : Nat → List Row

/-- `append_to_bucket`: opens a writer for `bucket` if none is open yet
(this is the only place a bucket file comes into existence) and appends
`table` to that bucket's file. -/
def append_to_bucket (st : RouterState) (bucket : Nat) (table : List Row) :
    RouterState where
  writers := if bucket ∈ st.writers then st.writers else bucket :: st.writers
  fileRows := fun b2 =>
    if b2 = bucket then st.fileRows bucket ++ table else st.fileRows b2

/-- One iteration of `for b in range(N_BUCKETS)` inside `main`'s router
loop: build the mask for bucket `b`, skip the bucket when no row matches
(`if pc.any(mask).as_py() is not True: continue`), otherwise filter the
row group and append the sub-table to the bucket. -/
def routeStep (table : List Row) (st : RouterState) (b : Nat) : RouterState :=
  let sub := table.filter (maskB b)
  if sub.isEmpty then st else append_to_bucket st b sub

/-- Routing of one row group: the `for b in range(N_BUCKETS)` loop. -/
def route_row_group (st : RouterState) (table : List Row) : RouterState :=
  (List.range N_BUCKETS).foldl (routeStep table) st

/-- The whole router pass of `main`: the input parquet is a sequence of
row groups, consumed in order, each fanned out to the bucket files.
Initially no writer is open and every bucket file is absent (empty). -/
def route_all (input : List (List Row)) : RouterState :=
  input.foldl route_row_group ⟨[], fun _ => []⟩

/-- Specification view of a bucket file: all rows of the input whose
bucket id equals `b`, in ingestion order. Proved below to coincide with
what the router writes. -/
def bucketContents (input : List (List Row)) (b : Nat) : List Row :=
  (input.map (fun rg => rg.filter (maskB b))).flatten

/-- Comparison used by `df.sort_values(KEYS, kind="mergesort")` on one
nullable column: pandas sorts nulls last (`na_position="last"`). -/
def optLe (a b : Option Int) : Bool :=
  match a, b with
  | _, none => true
  | none, some _ => false
  | some x, some y => decide (x ≤ y)

/-- Strict version of `optLe` (nulls last). -/
def optLt (a b : Option Int) : Bool :=
  match a, b with
  | none, _ => false
  | some _, none => true
  | some x, some y => decide (x < y)

/-- The lexicographic row comparison realised by
`df.sort_values(KEYS, kind="mergesort")` with `KEYS = [station_id,
time_hour]`: rows are compared on the Composite Key only; no other column
participates. -/
def keyLe (a b : Row) : Bool :=
  if a.station_id = b.station_id then optLe a.time_hour b.time_hour
  else optLt a.station_id b.station_id

/-- `df.sort_values(KEYS, kind="mergesort")`: a stable merge sort of the
rows under the key comparison. -/
def sort_values (l : List Row) : List Row := l.mergeSort keyLe

/-- Recursion of pandas `drop_duplicates(subset=KEYS, keep="first")`:
walk the frame top to bottom, keep a row iff its key has not been seen
before (pandas treats null key entries as equal to each other, as does
`Option` equality here). -/
def drop_duplicates_go (seen : List (Option Int × Option Int)) :
    List Row → List Row
  | [] => []
  | r :: rest =>
    if rowKey r ∈ seen then drop_duplicates_go seen rest
    else r :: drop_duplicates_go (rowKey r :: seen) rest

/-- `df.drop_duplicates(subset=KEYS, keep="first")`. -/
def drop_duplicates (l : List Row) : List Row := drop_duplicates_go [] l

/-- The table transformation of `dedup_bucket_file`: read the whole bucket,
sort it stably by the key columns, drop duplicate keys keeping the first
row, and write the result back. -/
def dedup_bucket_table (l : List Row) : List Row :=
  drop_duplicates (sort_values l)

/-- `dedup_bucket_file`'s return value `(rows_in, rows_out)`. -/
def dedup_bucket_file (l : List Row) : Nat × Nat :=
  (l.length, (dedup_bucket_table l).length)

/-- `concat_parts_to_one`: append every part to the single output writer
in the given order, counting the total rows written; the returned pair is
the content of the output file together with the `total` the function
returns. No other computation (in particular no key-consistency check)
happens here. -/
def concat_parts_to_one (parts : List (List Row)) : List Row × Nat :=
  (parts.flatten, (parts.map List.length).sum)

/-- The bucket files found by `sorted(BUCKET_DIR.glob("bucket_*.parquet"))`
after the router pass: exactly the buckets whose writer was opened, in
ascending bucket order (the `bucket_%02d` file names sort numerically for
`b < 100`). -/
def bucket_files (input : List (List Row)) : List (List Row) :=
  ((List.range N_BUCKETS).filter
      (fun b => decide (b ∈ (route_all input).writers))).map
    (route_all input).fileRows

/-- Steps 1–3 of `main` in `dedup_gold_global_by_bucket.py`: route the
input row groups to bucket files, fail when no bucket file was created at
all (`raise RuntimeError("No se han creado buckets...")`), otherwise
deduplicate every existing bucket file and concatenate the deduplicated
parts, in file-name order, into the final output table. -/
def mainOutput (input : List (List Row)) : Except String (List Row) :=
  let files := bucket_files input
  if files.isEmpty then
    Except.error "No se han creado buckets. Algo ha ido mal."
  else
    Except.ok (concat_parts_to_one (files.map dedup_bucket_table)).1

/-- `COUNT(DISTINCT (station_id, time_hour))` of a row list. -/
def distinct_key_count (l : List Row) : Nat := (l.map rowKey).dedup.length

/-! ## Part B: the schema normalizer of `dedup_gold_by_parts.py`

Columns carry an Arrow data type and a list of cell values. Numeric and
temporal cells are embedded by their payload (`vint`/`vfloat` over `Int`;
no floating-point arithmetic is performed anywhere in the normalizer, so
an exact payload is a faithful carrier); `vnull` is a null cell and
`vstr` a textual cell. `Table.cast(TARGET_SCHEMA, safe=False)` is
embedded column by column (as pyarrow implements it): `safe=False` lets
any numeric/temporal payload through, lossily or not, while a
non-numeric string raises `ArrowInvalid` — an error value that carries
the offending cell value and the target type, and nothing else (in
particular neither the field name nor the source chunk). -/

/-- The Arrow types appearing in `TARGET_FIELDS`. -/
inductive PType where
  | int64
  | timestamp_ms
  | float64
  | int32
  | int8
  | date32
deriving DecidableEq, Repr

/-- A cell value of an input or output column. -/
inductive Value where
  | vnull
  | vint (n : Int)
  | vfloat (x : Int)
  | vstr (s : String)
deriving DecidableEq, Repr

/-- One column of a table: name, Arrow type, cells. -/
structure Col where
  name : String
  dtype : PType
  data : List Value
deriving DecidableEq, Repr

/-- A table chunk: its row count and its columns. -/
structure Table where
  nrows : Nat
  cols : List Col
deriving DecidableEq, Repr

/-- `TARGET_FIELDS` of `dedup_gold_by_parts.py`: the fixed, ordered,
typed target schema. -/
def TARGET_FIELDS : List (String × PType) :=
  [("station_id", .int64),
   ("time_hour", .timestamp_ms),
   ("bikes_available_mean", .float64),
   ("docks_available_mean", .float64),
   ("mechanical_mean", .float64),
   ("ebike_mean", .float64),
   ("obs_count", .int64),
   ("hour", .int32),
   ("dayofweek", .int32),
   ("month", .int32),
   ("date", .date32),
   ("is_weekend", .int8),
   ("is_holiday", .int8),
   ("temperature_2m", .float64),
   ("relative_humidity_2m", .float64),
   ("precipitation", .float64),
   ("wind_speed_10m", .float64),
   ("pressure_msl", .float64),
   ("lag_1h_bikes", .float64),
   ("lag_24h_bikes", .float64),
   ("roll3h_bikes_mean", .float64)]

/-- `TARGET_COLUMNS = [f.name for f in TARGET_FIELDS]`. -/
def TARGET_COLUMNS : List String := TARGET_FIELDS.map Prod.fst

/-- Arrow's parse of a textual cell into a number (the library side of
`cast` on string input): a plain numeral parses, anything else is
non-coercible. -/
def parseIntString (s : String) : Option Int :=
  if s.data.isEmpty then none
  else if s.data.all Char.isDigit then
    some (s.data.foldl (fun n c => 10 * n + ((c.toNat : Int) - 48)) 0)
  else none

/-- One cell under Arrow `cast(..., safe=False)`: nulls pass through,
numeric/temporal payloads are retagged to the target type (lossy
narrowing permitted — `safe=False`), a string must parse as a number or
the cast fails. -/
def castValue (t : PType) : Value → Option Value
  | .vnull => some .vnull
  | .vint n =>
    some (match t with
      | .float64 => .vfloat n
      | _ => .vint n)
  | .vfloat x =>
    some (match t with
      | .float64 => .vfloat x
      | _ => .vint x)
  | .vstr s =>
    match parseIntString s with
    | some n =>
      some (match t with
        | .float64 => .vfloat n
        | _ => .vint n)
    | none => none

/-- The payload of the `ArrowInvalid` raised by a failed cast: the
offending cell value and the target type. pyarrow's message carries no
column name and no chunk identity, and the repository adds neither. -/
structure CastErr where
  value : Value
  target : PType
deriving DecidableEq, Repr

/-- Cast one column's cells to a target type, failing on the first
non-coercible cell. -/
def castColumn (t : PType) : List Value → Except CastErr (List Value)
  | [] => .ok []
  | v :: vs =>
    match castValue t v with
    | none => .error ⟨v, t⟩
    | some w =>
      match castColumn t vs with
      | .error e => .error e
      | .ok ws => .ok (w :: ws)

/-- `table[name]` lookup used by `ensure_all_columns_and_cast`. -/
def lookupCol (t : Table) (name : String) : Option Col :=
  t.cols.find? (fun c => c.name == name)

/-- The loop of `ensure_all_columns_and_cast` over `TARGET_FIELDS`: take
the input column when present, else a null column of the chunk's row
count (`pa.nulls(table.num_rows, type=field.type)`), then cast to the
target type. -/
def ensure_go (t : Table) : List (String × PType) → Except CastErr (List Col)
  | [] => .ok []
  | (n, ty) :: fs =>
    let arr : List Value :=
      match lookupCol t n with
      | some c => c.data
      | none => List.replicate t.nrows Value.vnull
    match castColumn ty arr with
    | .error e => .error e
    | .ok ws =>
      match ensure_go t fs with
      | .error e => .error e
      | .ok cs => .ok (⟨n, ty, ws⟩ :: cs)

/-- `ensure_all_columns_and_cast`: align the chunk to `TARGET_COLUMNS`
(synthesizing null columns for absent fields, dropping the rest), cast to
`TARGET_SCHEMA` with `safe=False`, and strip metadata (metadata is not
represented here). -/
def ensure_all_columns_and_cast (t : Table) : Except CastErr Table :=
  match ensure_go t TARGET_FIELDS with
  | .error e => .error e
  | .ok cs => .ok ⟨t.nrows, cs⟩

/-- The key of row `i` of a chunk, as pandas `drop_duplicates` sees it:
the `station_id` and `time_hour` cells (missing column or out-of-range
index read as null; pandas treats nulls as equal to each other). -/
def keyAtB (t : Table) (i : Nat) : Option Value × Option Value :=
  ((lookupCol t "station_id").bind (fun c => c.data[i]?),
   (lookupCol t "time_hour").bind (fun c => c.data[i]?))

/-- Indices of the rows `drop_duplicates(subset=DEDUP_KEYS,
keep="first")` retains: row `i` survives iff no earlier row has the same
key. -/
def keptIdx (t : Table) : List Nat :=
  (List.range t.nrows).filter
    (fun i => decide (∀ j ∈ List.range i, keyAtB t j ≠ keyAtB t i))

/-- Select a sublist of rows of every column. -/
def selectRows (t : Table) (idx : List Nat) : Table where
  nrows := idx.length
  cols := t.cols.map (fun c => ⟨c.name, c.dtype, idx.filterMap (fun i => c.data[i]?)⟩)

/-- `dedup_table_with_pandas_keep_first`: drop duplicate-key rows keeping
the first, then re-normalize to the fixed schema; returns the table and
the number of removed rows. -/
def dedup_table_with_pandas_keep_first (t : Table) :
    Except CastErr (Table × Nat) :=
  let t2 := selectRows t (keptIdx t)
  match ensure_all_columns_and_cast t2 with
  | .error e => .error e
  | .ok o => .ok (o, t.nrows - t2.nrows)

/-- The per-part loop of `main` in `dedup_gold_by_parts.py`: each part is
read, normalized (`ensure_all_columns_and_cast`, which may fail),
deduplicated, and collected (written to the intermediate directory); the
first failure aborts the loop, leaving no further part processed. -/
def process_parts : List Table → Except CastErr (List Table)
  | [] => .ok []
  | p :: ps =>
    match ensure_all_columns_and_cast p with
    | .error e => .error e
    | .ok t =>
      match dedup_table_with_pandas_keep_first t with
      | .error e => .error e
      | .ok d =>
        match process_parts ps with
        | .error e => .error e
        | .ok rest => .ok (d.1 :: rest)

/-- `concat_parquets_to_one`: re-read every deduplicated part,
re-normalize it (a cast failure aborts), append it to the single output
writer and add its rows to the running total. The output parquet is
represented by its sequence of written row groups plus that total. -/
def concat_parquets_to_one : List Table → Except CastErr (List Table × Nat)
  | [] => .ok ([], 0)
  | p :: ps =>
    match ensure_all_columns_and_cast p with
    | .error e => .error e
    | .ok t =>
      match concat_parquets_to_one ps with
      | .error e => .error e
      | .ok (rest, total) => .ok (t :: rest, t.nrows + total)

/-- The data flow of `main` in `dedup_gold_by_parts.py`: dedup every part
(loop 1), then join the deduplicated parts into the final parquet
(loop 2). Any cast failure anywhere aborts the run with that error and
the final output is never produced. -/
def mainB (parts : List Table) : Except CastErr (List Table × Nat) :=
  match process_parts parts with
  | .error e => .error e
  | .ok dedup_parts => concat_parquets_to_one dedup_parts

instance instDecEqExcept {ε α : Type} [DecidableEq ε] [DecidableEq α] :
    DecidableEq (Except ε α) := fun a b =>
  match a, b with
  | .error e, .error e' =>
    if h : e = e' then .isTrue (by rw [h])
    else .isFalse (fun hc => h (Except.error.inj hc))
  | .ok x, .ok y =>
    if h : x = y then .isTrue (by rw [h])
    else .isFalse (fun hc => h (Except.ok.inj hc))
  | .error _, .ok _ => .isFalse (fun hc => Except.noConfusion hc)
  | .ok _, .error _ => .isFalse (fun hc => Except.noConfusion hc)

/-! ## Order facts about the key comparison -/

theorem optLe_trans {a b c : Option Int} (h1 : optLe a b) (h2 : optLe b c) :
    optLe a c := by
  cases a <;> cases b <;> cases c <;> simp_all [optLe] <;> omega

theorem optLe_total (a b : Option Int) : optLe a b ∨ optLe b a := by
  cases a <;> cases b <;> simp_all [optLe] <;> omega

theorem optLe_antisymm {a b : Option Int} (h1 : optLe a b) (h2 : optLe b a) :
    a = b := by
  cases a <;> cases b <;> simp_all [optLe] <;> omega

theorem optLt_trans {a b c : Option Int} (h1 : optLt a b) (h2 : optLt b c) :
    optLt a c := by
  cases a <;> cases b <;> cases c <;> simp_all [optLt] <;> omega

theorem optLt_asymm {a b : Option Int} (h1 : optLt a b) (h2 : optLt b a) :
    False := by
  cases a <;> cases b <;> simp_all [optLt] <;> omega

theorem optLt_total_of_ne {a b : Option Int} (h : a ≠ b) :
    optLt a b ∨ optLt b a := by
  cases a <;> cases b <;> simp_all [optLt] <;> omega

theorem keyLe_trans (a b c : Row) (h1 : keyLe a b) (h2 : keyLe b c) :
    keyLe a c := by
  unfold keyLe at h1 h2 ⊢
  by_cases hab : a.station_id = b.station_id <;>
    by_cases hbc : b.station_id = c.station_id
  · rw [if_pos hab] at h1
    rw [if_pos hbc] at h2
    rw [if_pos (hab.trans hbc)]
    exact optLe_trans h1 h2
  · rw [if_pos hab] at h1
    rw [if_neg hbc] at h2
    rw [if_neg (fun h => hbc (hab ▸ h)), hab]
    exact h2
  · rw [if_neg hab] at h1
    rw [if_pos hbc] at h2
    rw [if_neg (fun h => hab (hbc ▸ h)), ← hbc]
    exact h1
  · rw [if_neg hab] at h1
    rw [if_neg hbc] at h2
    have hlt := optLt_trans h1 h2
    have hac : a.station_id ≠ c.station_id := by
      intro h
      exact optLt_asymm h1 (h ▸ h2)
    rw [if_neg hac]
    exact hlt

theorem keyLe_total (a b : Row) : keyLe a b || keyLe b a := by
  unfold keyLe
  by_cases hab : a.station_id = b.station_id
  · rw [if_pos hab, if_pos hab.symm]
    rcases optLe_total a.time_hour b.time_hour with h | h <;> simp [h]
  · rw [if_neg hab, if_neg (Ne.symm hab)]
    rcases optLt_total_of_ne hab with h | h <;> simp [h]

theorem keyLe_of_key_eq {a b : Row} (h : rowKey a = rowKey b) : keyLe a b := by
  have hs : a.station_id = b.station_id := congrArg Prod.fst h
  have ht : a.time_hour = b.time_hour := congrArg Prod.snd h
  unfold keyLe
  rw [if_pos hs, ht]
  cases b.time_hour with
  | none => simp [optLe]
  | some t => simp [optLe]

/-! ## Facts about `drop_duplicates` -/

theorem drop_duplicates_go_sublist (seen : List (Option Int × Option Int)) :
    ∀ l : List Row, drop_duplicates_go seen l <+ l := by
  intro l
  induction l generalizing seen with
  | nil => simp [drop_duplicates_go]
  | cons r rest ih =>
    unfold drop_duplicates_go
    by_cases h : rowKey r ∈ seen
    · rw [if_pos h]
      exact (ih seen).cons r
    · rw [if_neg h]
      exact (ih (rowKey r :: seen)).cons₂ r

theorem drop_duplicates_sublist (l : List Row) : drop_duplicates l <+ l :=
  drop_duplicates_go_sublist [] l

theorem key_not_seen_of_mem_drop_duplicates_go
    {seen : List (Option Int × Option Int)} {l : List Row} {r : Row}
    (hr : r ∈ drop_duplicates_go seen l) : rowKey r ∉ seen := by
  induction l generalizing seen with
  | nil => simp [drop_duplicates_go] at hr
  | cons a rest ih =>
    unfold drop_duplicates_go at hr
    by_cases h : rowKey a ∈ seen
    · rw [if_pos h] at hr
      exact ih hr
    · rw [if_neg h] at hr
      rcases List.mem_cons.mp hr with rfl | hr'
      · exact h
      · intro hsin
        exact ih hr' (List.mem_cons_of_mem _ hsin)

theorem pairwise_key_ne_drop_duplicates_go
    (seen : List (Option Int × Option Int)) (l : List Row) :
    (drop_duplicates_go seen l).Pairwise (fun a b => rowKey a ≠ rowKey b) := by
  induction l generalizing seen with
  | nil => simp [drop_duplicates_go]
  | cons a rest ih =>
    unfold drop_duplicates_go
    by_cases h : rowKey a ∈ seen
    · rw [if_pos h]
      exact ih seen
    · rw [if_neg h]
      refine List.Pairwise.cons ?_ (ih (rowKey a :: seen))
      intro b hb heq
      have := key_not_seen_of_mem_drop_duplicates_go hb
      exact this (heq ▸ List.mem_cons_self _ _)

theorem filter_drop_duplicates_go
    (k : Option Int × Option Int) (seen : List (Option Int × Option Int)) :
    ∀ l : List Row,
      (drop_duplicates_go seen l).filter (fun r => decide (rowKey r = k)) =
        if k ∈ seen then []
        else (l.filter (fun r => decide (rowKey r = k))).take 1 := by
  intro l
  induction l generalizing seen with
  | nil => simp [drop_duplicates_go]
  | cons a rest ih =>
    unfold drop_duplicates_go
    by_cases hseen : rowKey a ∈ seen
    · rw [if_pos hseen]
      by_cases hk : k ∈ seen
      · rw [ih seen, if_pos hk, if_pos hk]
      · have hak : rowKey a ≠ k := fun h => hk (h ▸ hseen)
        rw [ih seen, if_neg hk, if_neg hk, List.filter_cons]
        have hcond : (decide (rowKey a = k)) = false := by simp [hak]
        rw [hcond]
        simp
    · rw [if_neg hseen]
      by_cases hak : rowKey a = k
      · subst hak
        rw [if_neg hseen, List.filter_cons, List.filter_cons]
        simp only [decide_eq_true_eq, if_pos rfl]
        rw [ih (rowKey a :: seen), if_pos (List.mem_cons_self _ _)]
        simp
      · rw [List.filter_cons, List.filter_cons]
        have hcond : (decide (rowKey a = k)) = false := by simp [hak]
        rw [hcond]
        simp only [Bool.false_eq_true, if_false]
        rw [ih (rowKey a :: seen)]
        by_cases hk : k ∈ seen
        · rw [if_pos (List.mem_cons_of_mem _ hk), if_pos hk]
        · have hnot : k ∉ rowKey a :: seen := by
            intro h
            rcases List.mem_cons.mp h with h' | h'
            · exact hak h'.symm
            · exact hk h'
          rw [if_neg hnot, if_neg hk]

theorem filter_drop_duplicates (k : Option Int × Option Int) (l : List Row) :
    (drop_duplicates l).filter (fun r => decide (rowKey r = k)) =
      (l.filter (fun r => decide (rowKey r = k))).take 1 := by
  rw [drop_duplicates, filter_drop_duplicates_go k [] l, if_neg (List.not_mem_nil k)]

/-! ## Stability of the sort: the rows of any one key keep ingestion order -/

theorem filter_key_sort_values (k : Option Int × Option Int) (l : List Row) :
    (sort_values l).filter (fun r => decide (rowKey r = k)) =
      l.filter (fun r => decide (rowKey r = k)) := by
  have hsub : l.filter (fun r => decide (rowKey r = k)) <+ sort_values l := by
    apply List.sublist_mergeSort
      (fun a b c hab hbc => keyLe_trans a b c hab hbc)
      (fun a b => keyLe_total a b)
    · apply List.pairwise_of_forall_mem_list
      intro a ha b hb
      have hak : rowKey a = k := by simpa using (List.mem_filter.mp ha).2
      have hbk : rowKey b = k := by simpa using (List.mem_filter.mp hb).2
      exact keyLe_of_key_eq (hak.trans hbk.symm)
    · exact List.filter_sublist l
  have hsub2 : l.filter (fun r => decide (rowKey r = k)) <+
      (sort_values l).filter (fun r => decide (rowKey r = k)) := by
    have := hsub.filter (fun r => decide (rowKey r = k))
    rwa [List.filter_filter, show (fun r => decide (rowKey r = k) &&
        decide (rowKey r = k)) = fun r => decide (rowKey r = k) by
      funext r; cases h : decide (rowKey r = k) <;> simp [h]] at this
  have hperm : (sort_values l).filter (fun r => decide (rowKey r = k)) ~
      l.filter (fun r => decide (rowKey r = k)) :=
    (List.mergeSort_perm l keyLe).filter _
  exact (hsub2.eq_of_length hperm.length_eq.symm).symm

/-! ## The router pass writes exactly the per-bucket filters, lazily -/

theorem bucketContents_eq_filter (input : List (List Row)) (b : Nat) :
    bucketContents input b = input.flatten.filter (maskB b) := by
  rw [bucketContents, List.filter_flatten]

theorem routeStep_fileRows_other {table : List Row} {st : RouterState}
    {b b' : Nat} (h : b' ≠ b) :
    (routeStep table st b).fileRows b' = st.fileRows b' := by
  unfold routeStep
  by_cases he : (table.filter (maskB b)).isEmpty
  · rw [if_pos he]
  · rw [if_neg he]
    simp [append_to_bucket, h]

theorem routeStep_fileRows_self (table : List Row) (st : RouterState)
    (b : Nat) :
    (routeStep table st b).fileRows b = st.fileRows b ++ table.filter (maskB b) := by
  unfold routeStep
  by_cases he : (table.filter (maskB b)).isEmpty
  · rw [if_pos he, List.isEmpty_iff.mp he, List.append_nil]
  · rw [if_neg he]
    simp [append_to_bucket]

theorem foldl_routeStep_fileRows (table : List Row) (bs : List Nat)
    (st : RouterState) (b : Nat) (hnd : bs.Nodup) :
    (bs.foldl (routeStep table) st).fileRows b =
      if b ∈ bs then st.fileRows b ++ table.filter (maskB b)
      else st.fileRows b := by
  induction bs generalizing st with
  | nil => simp
  | cons a bs ih =>
    rw [List.foldl_cons]
    rcases List.nodup_cons.mp hnd with ⟨hna, hnd'⟩
    by_cases hba : b = a
    · subst hba
      rw [ih _ hnd', if_neg hna, if_pos (List.mem_cons_self _ _)]
      exact routeStep_fileRows_self table st b
    · rw [ih _ hnd', routeStep_fileRows_other hba]
      by_cases hbs : b ∈ bs
      · rw [if_pos hbs, if_pos (List.mem_cons_of_mem _ hbs)]
      · rw [if_neg hbs, if_neg (by
          intro h
          rcases List.mem_cons.mp h with h' | h'
          · exact hba h'
          · exact hbs h')]

theorem route_row_group_fileRows (st : RouterState) (table : List Row)
    (b : Nat) :
    (route_row_group st table).fileRows b =
      if b < N_BUCKETS then st.fileRows b ++ table.filter (maskB b)
      else st.fileRows b := by
  rw [route_row_group, foldl_routeStep_fileRows table _ st b (List.nodup_range _)]
  simp [List.mem_range]

theorem route_all_go_fileRows (input : List (List Row)) (st : RouterState)
    (b : Nat) (hb : b < N_BUCKETS) :
    (input.foldl route_row_group st).fileRows b =
      st.fileRows b ++ bucketContents input b := by
  induction input generalizing st with
  | nil => simp [bucketContents]
  | cons rg input ih =>
    rw [List.foldl_cons, ih, route_row_group_fileRows, if_pos hb]
    rw [bucketContents, bucketContents, List.map_cons, List.flatten_cons,
      List.append_assoc]

theorem route_all_fileRows (input : List (List Row)) (b : Nat)
    (hb : b < N_BUCKETS) :
    (route_all input).fileRows b = bucketContents input b := by
  rw [route_all, route_all_go_fileRows input _ b hb]
  simp

theorem routeStep_writers_iff (table : List Row) (st : RouterState)
    (b b' : Nat) :
    b' ∈ (routeStep table st b).writers ↔
      b' ∈ st.writers ∨ (b' = b ∧ table.filter (maskB b) ≠ []) := by
  unfold routeStep
  by_cases he : (table.filter (maskB b)).isEmpty
  · rw [if_pos he]
    simp [List.isEmpty_iff.mp he]
  · rw [if_neg he]
    unfold append_to_bucket
    by_cases hw : b ∈ st.writers
    · rw [if_pos hw]
      constructor
      · intro h
        exact Or.inl h
      · rintro (h | ⟨rfl, -⟩)
        · exact h
        · exact hw
    · rw [if_neg hw]
      simp only [List.mem_cons]
      constructor
      · rintro (rfl | h)
        · exact Or.inr ⟨rfl, fun hnil => he (List.isEmpty_iff.mpr hnil)⟩
        · exact Or.inl h
      · rintro (h | ⟨rfl, -⟩)
        · exact Or.inr h
        · exact Or.inl rfl

theorem foldl_routeStep_writers (table : List Row) (bs : List Nat)
    (st : RouterState) (b : Nat) :
    b ∈ (bs.foldl (routeStep table) st).writers ↔
      b ∈ st.writers ∨ (b ∈ bs ∧ table.filter (maskB b) ≠ []) := by
  induction bs generalizing st with
  | nil => simp
  | cons a bs ih =>
    rw [List.foldl_cons, ih, routeStep_writers_iff]
    constructor
    · rintro ((h | ⟨rfl, hne⟩) | ⟨hm, hne⟩)
      · exact Or.inl h
      · exact Or.inr ⟨List.mem_cons_self _ _, hne⟩
      · exact Or.inr ⟨List.mem_cons_of_mem _ hm, hne⟩
    · rintro (h | ⟨hm, hne⟩)
      · exact Or.inl (Or.inl h)
      · rcases List.mem_cons.mp hm with rfl | hm'
        · exact Or.inl (Or.inr ⟨rfl, hne⟩)
        · exact Or.inr ⟨hm', hne⟩

theorem route_all_go_writers (input : List (List Row)) (st : RouterState)
    (b : Nat) :
    b ∈ (input.foldl route_row_group st).writers ↔
      b ∈ st.writers ∨
        (b < N_BUCKETS ∧ ∃ rg ∈ input, rg.filter (maskB b) ≠ []) := by
  induction input generalizing st with
  | nil => simp
  | cons rg input ih =>
    rw [List.foldl_cons, ih, route_row_group, foldl_routeStep_writers]
    simp only [List.mem_range, List.mem_cons]
    constructor
    · rintro ((h | ⟨hb, hne⟩) | ⟨hb, rg', hrg', hne⟩)
      · exact Or.inl h
      · exact Or.inr ⟨hb, rg, Or.inl rfl, hne⟩
      · exact Or.inr ⟨hb, rg', Or.inr hrg', hne⟩
    · rintro (h | ⟨hb, rg', hrg', hne⟩)
      · exact Or.inl (Or.inl h)
      · rcases hrg' with rfl | hrg''
        · exact Or.inl (Or.inr ⟨hb, hne⟩)
        · exact Or.inr ⟨hb, rg', hrg'', hne⟩

/-- A bucket file exists after the router pass iff some row was routed to
it: the writer is opened on the first routed row and never before. -/
theorem route_all_writers (input : List (List Row)) (b : Nat) :
    b ∈ (route_all input).writers ↔
      b < N_BUCKETS ∧ bucketContents input b ≠ [] := by
  rw [route_all, route_all_go_writers]
  simp only [List.not_mem_nil, false_or]
  constructor
  · rintro ⟨hb, rg, hrg, hne⟩
    refine ⟨hb, fun hnil => hne ?_⟩
    have : rg.filter (maskB b) <+ bucketContents input b := by
      rw [bucketContents]
      exact List.sublist_flatten_of_mem (List.mem_map_of_mem _ hrg)
    rw [hnil] at this
    exact List.sublist_nil.mp this
  · rintro ⟨hb, hne⟩
    refine ⟨hb, ?_⟩
    by_contra hall
    push_neg at hall
    apply hne
    rw [bucketContents]
    apply List.flatten_eq_nil_iff.mpr
    intro l hl
    rcases List.mem_map.mp hl with ⟨rg, hrg, rfl⟩
    exact hall rg hrg

/-- The list of bucket files the dedup stage iterates over, expressed
through the specification view `bucketContents`. -/
theorem bucket_files_eq (input : List (List Row)) :
    bucket_files input =
      ((List.range N_BUCKETS).filter
          (fun b => !(bucketContents input b).isEmpty)).map
        (bucketContents input) := by
  rw [bucket_files]
  rw [List.filter_congr (fun b hb => ?_), List.map_congr_left (fun b hb => ?_)]
  · rcases List.mem_filter.mp hb with ⟨hbr, hbne⟩
    exact route_all_fileRows input b (List.mem_range.mp hbr)
  · rw [List.mem_range] at hb
    by_cases hne : bucketContents input b = []
    · simp [route_all_writers, hne]
    · simp [route_all_writers, hne, hb]

/-! ## Buckets: existence, uniqueness, and membership transfer -/

theorem mask_unique {b b' : Nat} {r : Row} (h : maskB b r) (h' : maskB b' r) :
    b = b' := by
  rw [maskB, decide_eq_true_eq] at h h'
  rw [h] at h'
  have := Option.some.inj h'
  exact_mod_cast this

theorem exists_bucket {r : Row} {s : Int} (h : r.station_id = some s) :
    ∃ b, b < N_BUCKETS ∧ maskB b r ∧ (b : Int) = s % (N_BUCKETS : Int) := by
  have hnz : ((N_BUCKETS : Int)) ≠ 0 := by decide
  have hpos : (0 : Int) < (N_BUCKETS : Int) := by decide
  have hnn : 0 ≤ s % (N_BUCKETS : Int) := Int.emod_nonneg s hnz
  have hlt : s % (N_BUCKETS : Int) < (N_BUCKETS : Int) := Int.emod_lt_of_pos s hpos
  refine ⟨(s % (N_BUCKETS : Int)).toNat, ?_, ?_, ?_⟩
  · omega
  · rw [maskB, decide_eq_true_eq, bucket_id_from_station_id, h, Option.map_some']
    congr 1
    omega
  · omega

theorem mem_flatten_of_mem_bucketContents {input : List (List Row)} {b : Nat}
    {r : Row} (h : r ∈ bucketContents input b) : r ∈ input.flatten := by
  rw [bucketContents_eq_filter] at h
  exact List.mem_of_mem_filter h

theorem mask_of_mem_bucketContents {input : List (List Row)} {b : Nat}
    {r : Row} (h : r ∈ bucketContents input b) : maskB b r = true := by
  rw [bucketContents_eq_filter] at h
  exact List.of_mem_filter h

theorem mem_bucketContents_of_mask {input : List (List Row)} {b : Nat}
    {r : Row} (hr : r ∈ input.flatten) (hm : maskB b r = true) :
    r ∈ bucketContents input b := by
  rw [bucketContents_eq_filter]
  exact List.mem_filter.mpr ⟨hr, hm⟩

theorem mem_of_mem_dedup_bucket {r : Row} {l : List Row}
    (h : r ∈ dedup_bucket_table l) : r ∈ l := by
  rw [dedup_bucket_table] at h
  have h1 : r ∈ sort_values l := (drop_duplicates_sublist _).mem h
  rw [sort_values] at h1
  exact List.mem_mergeSort.mp h1

/-! ## Key membership through dedup -/

theorem exists_key_iff_filter_ne (l : List Row) (k : Option Int × Option Int) :
    (∃ r ∈ l, rowKey r = k) ↔
      l.filter (fun r => decide (rowKey r = k)) ≠ [] := by
  rw [Ne, List.filter_eq_nil_iff]
  push_neg
  simp

theorem filter_key_dedup_bucket (l : List Row) (k : Option Int × Option Int) :
    (dedup_bucket_table l).filter (fun r => decide (rowKey r = k)) =
      (l.filter (fun r => decide (rowKey r = k))).take 1 := by
  rw [dedup_bucket_table, filter_drop_duplicates, filter_key_sort_values]

theorem exists_key_dedup_bucket_iff (l : List Row)
    (k : Option Int × Option Int) :
    (∃ r ∈ dedup_bucket_table l, rowKey r = k) ↔ ∃ r ∈ l, rowKey r = k := by
  rw [exists_key_iff_filter_ne, exists_key_iff_filter_ne,
    filter_key_dedup_bucket]
  constructor
  · intro h hnil
    rw [hnil] at h
    exact h rfl
  · intro h htake
    rcases List.take_eq_nil_iff.mp htake with h1 | h1
    · exact absurd h1 (by decide)
    · exact h h1

/-! ## Counting helpers -/

theorem sum_map_add (bs : List Nat) (f g : Nat → Nat) :
    (bs.map (fun b => f b + g b)).sum = (bs.map f).sum + (bs.map g).sum := by
  induction bs with
  | nil => simp
  | cons a bs ih => simp [ih]; omega

theorem sum_map_ite_zero (bs : List Nat) (B : Nat) (hB : B ∉ bs) :
    (bs.map (fun b => if b = B then (1 : Nat) else 0)).sum = 0 := by
  induction bs with
  | nil => simp
  | cons a bs ih =>
    rw [List.map_cons, List.sum_cons, ih (fun h => hB (List.mem_cons_of_mem _ h)),
      if_neg (fun h : a = B => hB (h ▸ List.mem_cons_self a bs))]

theorem sum_map_ite_one (bs : List Nat) (B : Nat) (hnd : bs.Nodup)
    (hB : B ∈ bs) :
    (bs.map (fun b => if b = B then (1 : Nat) else 0)).sum = 1 := by
  induction bs with
  | nil => simp at hB
  | cons a bs ih =>
    rcases List.nodup_cons.mp hnd with ⟨hna, hnd'⟩
    rw [List.map_cons, List.sum_cons]
    rcases List.mem_cons.mp hB with rfl | hB'
    · rw [if_pos rfl, sum_map_ite_zero bs B hna]
    · rw [if_neg (fun h : a = B => hna (h ▸ hB')), ih hnd' hB']

/-- Each routed row lands in exactly one bucket: the per-bucket filters
partition any list of rows whose station ids are all non-null. -/
theorem length_filter_partition (l : List Row)
    (hl : ∀ r ∈ l, ∃ s, r.station_id = some s) :
    ((List.range N_BUCKETS).map
        (fun b => (l.filter (maskB b)).length)).sum = l.length := by
  induction l with
  | nil => simp
  | cons r l ih =>
    have hr : ∃ s, r.station_id = some s := hl r (List.mem_cons_self _ _)
    rcases hr with ⟨s, hs⟩
    rcases exists_bucket hs with ⟨B, hBlt, hBm, -⟩
    have hstep : ∀ b : Nat, ((r :: l).filter (maskB b)).length =
        (if b = B then 1 else 0) + (l.filter (maskB b)).length := by
      intro b
      rw [List.filter_cons]
      by_cases hb : b = B
      · subst hb
        rw [hBm]
        simp
        omega
      · have : maskB b r = false := by
          by_contra hmb
          exact hb (mask_unique (Bool.of_not_eq_false hmb) hBm)
        rw [this]
        simp [hb]
    calc ((List.range N_BUCKETS).map
            (fun b => ((r :: l).filter (maskB b)).length)).sum
        = ((List.range N_BUCKETS).map
            (fun b => (if b = B then 1 else 0) +
              (l.filter (maskB b)).length)).sum := by
          rw [List.map_congr_left (fun b _ => hstep b)]
      _ = ((List.range N_BUCKETS).map (fun b => if b = B then 1 else 0)).sum +
            ((List.range N_BUCKETS).map
              (fun b => (l.filter (maskB b)).length)).sum :=
          sum_map_add _ _ _
      _ = 1 + l.length := by
          rw [sum_map_ite_one _ B (List.nodup_range _)
            (List.mem_range.mpr hBlt),
            ih (fun r' hr' => hl r' (List.mem_cons_of_mem _ hr'))]
      _ = (r :: l).length := by simp [Nat.add_comm]

theorem sum_map_filter_eq (bs : List Nat) (p : Nat → Bool) (f : Nat → Nat)
    (h0 : ∀ b ∈ bs, p b = false → f b = 0) :
    ((bs.filter p).map f).sum = (bs.map f).sum := by
  induction bs with
  | nil => simp
  | cons a bs ih =>
    rw [List.filter_cons]
    by_cases hp : p a
    · rw [if_pos hp, List.map_cons, List.sum_cons, List.map_cons, List.sum_cons,
        ih (fun b hb h => h0 b (List.mem_cons_of_mem _ hb) h)]
    · rw [if_neg hp, List.map_cons, List.sum_cons,
        h0 a (List.mem_cons_self _ _) (Bool.of_not_eq_true hp),
        ih (fun b hb h => h0 b (List.mem_cons_of_mem _ hb) h)]
      simp

/-- `flatten` of a family supported on one index. -/
theorem flatten_map_eq_of_unique (g : Nat → List Row) (bs : List Nat)
    (hnd : bs.Nodup) (B : Nat) (hB : B ∈ bs)
    (h0 : ∀ b ∈ bs, b ≠ B → g b = []) :
    (bs.map g).flatten = g B := by
  induction bs with
  | nil => simp at hB
  | cons a bs ih =>
    rcases List.nodup_cons.mp hnd with ⟨hna, hnd'⟩
    rw [List.map_cons, List.flatten_cons]
    rcases List.mem_cons.mp hB with rfl | hB'
    · have hrest : (bs.map g).flatten = [] := by
        apply List.flatten_eq_nil_iff.mpr
        intro l hl
        rcases List.mem_map.mp hl with ⟨b, hb, rfl⟩
        exact h0 b (List.mem_cons_of_mem _ hb) (fun h : b = B => hna (h ▸ hb))
      rw [hrest, List.append_nil]
    · rw [h0 a (List.mem_cons_self _ _) (fun h : a = B => hna (h ▸ hB')),
        List.nil_append,
        ih hnd' hB' (fun b hb h => h0 b (List.mem_cons_of_mem _ hb) h)]

/-! ## Shape of a successful run -/

theorem mainOutput_ok_iff (input : List (List Row)) (out : List Row) :
    mainOutput input = Except.ok out ↔
      bucket_files input ≠ [] ∧
        out = ((bucket_files input).map dedup_bucket_table).flatten := by
  rw [mainOutput]
  by_cases h : (bucket_files input).isEmpty
  · simp only [h, if_true]
    constructor
    · intro hc
      exact absurd hc (by simp)
    · rintro ⟨hne, -⟩
      exact absurd (List.isEmpty_iff.mp h) hne
  · simp only [h, if_false]
    rw [concat_parts_to_one]
    constructor
    · intro hc
      have := Except.ok.inj hc
      exact ⟨fun hnil => h (List.isEmpty_iff.mpr hnil), this.symm⟩
    · rintro ⟨-, rfl⟩
      rfl


/-! ## Normalizer facts -/

theorem castColumn_replicate_null (ty : PType) (n : Nat) :
    castColumn ty (List.replicate n Value.vnull) =
      Except.ok (List.replicate n Value.vnull) := by
  induction n with
  | zero => rfl
  | succ n ih => simp [castColumn, castValue, ih, List.replicate_succ]

theorem ensure_go_ok (t : Table) :
    ∀ (fs : List (String × PType)) (cs : List Col),
      ensure_go t fs = Except.ok cs →
      cs.map Col.name = fs.map Prod.fst ∧
      cs.map Col.dtype = fs.map Prod.snd ∧
      ∀ c ∈ cs, lookupCol t c.name = none →
        c.data = List.replicate t.nrows Value.vnull := by
  intro fs
  induction fs with
  | nil =>
    intro cs h
    simp only [ensure_go] at h
    have hcs : cs = [] := (Except.ok.inj h).symm
    subst hcs
    exact ⟨rfl, rfl, fun c hc => absurd hc (List.not_mem_nil c)⟩
  | cons f fs ih =>
    obtain ⟨n, ty⟩ := f
    intro cs h
    simp only [ensure_go] at h
    cases hlk : lookupCol t n with
    | none =>
      rw [hlk] at h
      rw [castColumn_replicate_null] at h
      cases hg : ensure_go t fs with
      | error e =>
        rw [hg] at h
        exact absurd h (by simp)
      | ok cs' =>
        rw [hg] at h
        have hcs : cs = ⟨n, ty, List.replicate t.nrows Value.vnull⟩ :: cs' :=
          (Except.ok.inj h).symm
        subst hcs
        obtain ⟨h1, h2, h3⟩ := ih cs' hg
        refine ⟨by simp [h1], by simp [h2], ?_⟩
        intro c hc hnone
        rcases List.mem_cons.mp hc with rfl | hc'
        · rfl
        · exact h3 c hc' hnone
    | some c0 =>
      rw [hlk] at h
      cases hcast : castColumn ty c0.data with
      | error e =>
        rw [hcast] at h
        exact absurd h (by simp)
      | ok ws =>
        rw [hcast] at h
        cases hg : ensure_go t fs with
        | error e =>
          rw [hg] at h
          exact absurd h (by simp)
        | ok cs' =>
          rw [hg] at h
          have hcs : cs = ⟨n, ty, ws⟩ :: cs' := (Except.ok.inj h).symm
          subst hcs
          obtain ⟨h1, h2, h3⟩ := ih cs' hg
          refine ⟨by simp [h1], by simp [h2], ?_⟩
          intro c hc hnone
          rcases List.mem_cons.mp hc with rfl | hc'
          · rw [show Col.name ⟨n, ty, ws⟩ = n from rfl, hlk] at hnone
            exact Option.noConfusion hnone
          · exact h3 c hc' hnone

theorem process_parts_error {parts : List Table} {p : Table} {e : CastErr}
    (hp : p ∈ parts) (he : ensure_all_columns_and_cast p = Except.error e) :
    ∃ e', process_parts parts = Except.error e' := by
  induction parts with
  | nil => exact absurd hp (List.not_mem_nil p)
  | cons q ps ih =>
    rcases List.mem_cons.mp hp with rfl | hp'
    · refine ⟨e, ?_⟩
      unfold process_parts
      rw [he]
    · cases hq : ensure_all_columns_and_cast q with
      | error e2 =>
        refine ⟨e2, ?_⟩
        simp only [process_parts, hq]
      | ok t =>
        cases hd : dedup_table_with_pandas_keep_first t with
        | error e2 =>
          refine ⟨e2, ?_⟩
          simp only [process_parts, hq, hd]
        | ok d =>
          rcases ih hp' with ⟨e', he'⟩
          refine ⟨e', ?_⟩
          simp only [process_parts, hq, hd, he']

/-! # Claim theorems -/

/-- C1: for every input table, the final output of the full pipeline
(bucket routing, per-bucket deduplication, concatenation) contains no two
rows with equal Composite Key `(station_id, time_hour)`. -/
theorem C1_output_keys_unique (input : List (List Row)) (out : List Row)
    (h : mainOutput input = Except.ok out) :
    out.Pairwise (fun r s => rowKey r ≠ rowKey s) := by
  rcases (mainOutput_ok_iff input out).mp h with ⟨-, rfl⟩
  rw [bucket_files_eq, List.map_map]
  apply List.pairwise_flatten.mpr
  constructor
  · intro l hl
    rcases List.mem_map.mp hl with ⟨b, -, rfl⟩
    exact pairwise_key_ne_drop_duplicates_go [] _
  · rw [List.pairwise_map]
    have hnd : ((List.range N_BUCKETS).filter
        (fun b => !(bucketContents input b).isEmpty)).Nodup :=
      (List.nodup_range _).filter _
    apply List.Pairwise.imp_of_mem ?_ hnd
    intro b b' hb hb' hne r hr s hs hkey
    have hrb : maskB b r = true :=
      mask_of_mem_bucketContents (mem_of_mem_dedup_bucket hr)
    have hsb : maskB b' s = true :=
      mask_of_mem_bucketContents (mem_of_mem_dedup_bucket hs)
    have hstation : r.station_id = s.station_id := congrArg Prod.fst hkey
    have hsb' : maskB b' r = true := by
      rw [maskB, decide_eq_true_eq, bucket_id_from_station_id, hstation]
      rw [maskB, decide_eq_true_eq, bucket_id_from_station_id] at hsb
      exact hsb
    exact hne (mask_unique hrb hsb')

/-- C1 witness: a run on one row group holding a duplicated key. -/
theorem C1_witness :
    mainOutput [[⟨some 1, some 10, 0⟩, ⟨some 2, some 5, 1⟩,
        ⟨some 1, some 10, 99⟩]] =
      Except.ok [⟨some 1, some 10, 0⟩, ⟨some 2, some 5, 1⟩] ∧
    ([(⟨some 1, some 10, 0⟩ : Row), ⟨some 2, some 5, 1⟩]).Pairwise
      (fun r s => rowKey r ≠ rowKey s) := by
  have h : mainOutput [[⟨some 1, some 10, 0⟩, ⟨some 2, some 5, 1⟩,
      ⟨some 1, some 10, 99⟩]] =
      Except.ok [⟨some 1, some 10, 0⟩, ⟨some 2, some 5, 1⟩] := by
    simp +decide [mainOutput, bucket_files, route_all, route_row_group,
      routeStep, append_to_bucket, maskB, bucket_id_from_station_id,
      N_BUCKETS, List.range, List.range.loop, dedup_bucket_table,
      drop_duplicates, drop_duplicates_go, rowKey, concat_parts_to_one,
      sort_values, List.mergeSort, List.splitInTwo, List.splitAt,
      List.splitAt.go, List.merge, keyLe, optLe, optLt]
  exact ⟨h, C1_output_keys_unique _ _ h⟩

/-- C4 counterexample: a row with a null `station_id` is assigned the
null bucket id, which is not a value in `[0, N)` (it matches none of the
router's equality masks), so the claim's "for every row, the bucket index
is a value in `[0, N)`" fails on such a row. -/
theorem C4_counterexample :
    bucket_id_from_station_id none = none ∧
    ((List.range N_BUCKETS).filter
        (fun b => maskB b ⟨none, some 0, 0⟩)).isEmpty = true ∧
    bucketContents [[⟨none, some 0, 0⟩]] 0 = [] := by
  refine ⟨rfl, ?_, rfl⟩
  decide

/-- C4 amended: for every row whose `station_id` is non-null, the bucket
index is `station_id mod N`, a value in `[0, N)` depending only on
`station_id` (no hash function is applied — the value itself is reduced
mod `N`); the bucket id of a row depends only on its Composite Key's
first component, and two rows with equal Composite Key can never sit in
two distinct shards. -/
theorem C4_amended :
    (∀ s : Int, bucket_id_from_station_id (some s) =
        some (s % (N_BUCKETS : Int)) ∧
      0 ≤ s % (N_BUCKETS : Int) ∧ s % (N_BUCKETS : Int) < (N_BUCKETS : Int)) ∧
    (∀ r₁ r₂ : Row, rowKey r₁ = rowKey r₂ →
      bucket_id_from_station_id r₁.station_id =
        bucket_id_from_station_id r₂.station_id) ∧
    (∀ (input : List (List Row)) (b₁ b₂ : Nat) (r₁ r₂ : Row),
      r₁ ∈ bucketContents input b₁ → r₂ ∈ bucketContents input b₂ →
      rowKey r₁ = rowKey r₂ → b₁ = b₂) := by
  refine ⟨?_, ?_, ?_⟩
  · intro s
    refine ⟨rfl, Int.emod_nonneg s (by decide), Int.emod_lt_of_pos s (by decide)⟩
  · intro r₁ r₂ hk
    have hs : r₁.station_id = r₂.station_id := congrArg Prod.fst hk
    rw [bucket_id_from_station_id, bucket_id_from_station_id, hs]
  · intro input b₁ b₂ r₁ r₂ h₁ h₂ hk
    have hm₁ : maskB b₁ r₁ = true := mask_of_mem_bucketContents h₁
    have hm₂ : maskB b₂ r₂ = true := mask_of_mem_bucketContents h₂
    have hs : r₁.station_id = r₂.station_id := congrArg Prod.fst hk
    have hm₂' : maskB b₂ r₁ = true := by
      rw [maskB, decide_eq_true_eq, bucket_id_from_station_id, hs]
      rw [maskB, decide_eq_true_eq, bucket_id_from_station_id] at hm₂
      exact hm₂
    exact mask_unique hm₁ hm₂'

/-- C4 witness: concrete instantiations of the amended claim. -/
theorem C4_amended_witness :
    (bucket_id_from_station_id (some 130) = some (130 % (N_BUCKETS : Int)) ∧
      0 ≤ (130 : Int) % (N_BUCKETS : Int) ∧
      (130 : Int) % (N_BUCKETS : Int) < (N_BUCKETS : Int)) ∧
    bucket_id_from_station_id (some 130) = bucket_id_from_station_id (some 130) ∧
    (2 : Nat) = 2 := by
  refine ⟨C4_amended.1 130, ?_, ?_⟩
  · exact C4_amended.2.1 ⟨some 130, some 4, 0⟩ ⟨some 130, some 4, 9⟩ rfl
  · exact C4_amended.2.2 [[⟨some 2, some 4, 0⟩], [⟨some 2, some 4, 9⟩]] 2 2
      ⟨some 2, some 4, 0⟩ ⟨some 2, some 4, 9⟩ (by decide) (by decide) rfl

/-- C5 counterexample: the sort relation actually used by
`dedup_bucket_file` (`sort_values` on `KEYS` alone) cannot distinguish
two distinct rows sharing a Composite Key — it ties them both ways — so
no per-row monotonic sequence number participates as a sort key, and no
such column exists in the shard data. -/
theorem C5_counterexample :
    KEYS = ["station_id", "time_hour"] ∧
    keyLe ⟨some 3, some 7, 0⟩ ⟨some 3, some 7, 1⟩ = true ∧
    keyLe ⟨some 3, some 7, 1⟩ ⟨some 3, some 7, 0⟩ = true ∧
    (⟨some 3, some 7, 0⟩ : Row) ≠ ⟨some 3, some 7, 1⟩ := by
  refine ⟨rfl, rfl, rfl, ?_⟩
  decide

/-- C5 amended: the Shard Deduplicator's deterministic order is a stable
merge sort by the Composite Key alone; determinism of "first" comes from
stability — within each key, the sorted shard preserves ingestion order
exactly — not from any explicit sequence number. -/
theorem C5_amended (l : List Row) (k : Option Int × Option Int) :
    sort_values l = l.mergeSort keyLe ∧
    (sort_values l).filter (fun r => decide (rowKey r = k)) =
      l.filter (fun r => decide (rowKey r = k)) :=
  ⟨rfl, filter_key_sort_values k l⟩

/-- C7: a bucket that receives no row over the whole router pass gets no
writer (hence no file — writers are opened lazily on the first routed
row) and nothing is ever written for it; the dedup and reassembly stages
run only over the files that exist, so an absent bucket is skipped and
the run still succeeds as long as any bucket received a row. -/
theorem C7_empty_bucket_no_file (input : List (List Row)) (b : Nat)
    (hempty : bucketContents input b = []) :
    b ∉ (route_all input).writers ∧
    (b < N_BUCKETS → (route_all input).fileRows b = []) ∧
    (∀ b₀, b₀ < N_BUCKETS → bucketContents input b₀ ≠ [] →
      ∃ out, mainOutput input = Except.ok out) := by
  refine ⟨?_, ?_, ?_⟩
  · intro hw
    exact ((route_all_writers input b).mp hw).2 hempty
  · intro hb
    rw [route_all_fileRows input b hb, hempty]
  · intro b₀ hb₀ hne
    refine ⟨((bucket_files input).map dedup_bucket_table).flatten, ?_⟩
    apply (mainOutput_ok_iff input _).mpr
    refine ⟨?_, rfl⟩
    rw [bucket_files_eq]
    intro hnil
    rcases List.map_eq_nil_iff.mp hnil with hfil
    have hmem : b₀ ∈ (List.range N_BUCKETS).filter
        (fun b => !(bucketContents input b).isEmpty) := by
      apply List.mem_filter.mpr
      refine ⟨List.mem_range.mpr hb₀, ?_⟩
      simp [hne]
    rw [hfil] at hmem
    exact List.not_mem_nil _ hmem

/-- C7 witness: bucket 0 receives nothing while bucket 2 has a row. -/
theorem C7_witness :
    bucketContents [[⟨some 2, some 4, 1⟩]] 0 = [] ∧
    0 ∉ (route_all [[⟨some 2, some 4, 1⟩]]).writers ∧
    (route_all [[⟨some 2, some 4, 1⟩]]).fileRows 0 = [] ∧
    (mainOutput [[⟨some 2, some 4, 1⟩]]).isOk = true := by
  have h := C7_empty_bucket_no_file [[⟨some 2, some 4, 1⟩]] 0 (by decide)
  refine ⟨by decide, h.1, h.2.1 (by decide), ?_⟩
  rcases h.2.2 2 (by decide) (by decide) with ⟨out, hout⟩
  rw [hout]
  rfl

/-- C8 counterexample: the Reassembler's whole observable result is the
concatenated rows plus a row total; fed two deduplicated parts that share
a Composite Key, it emits both rows and reports a plain total — no
consistency check runs, no failure is reported, the claim's post-condition
check does not exist in the code. -/
theorem C8_counterexample :
    concat_parts_to_one [[(⟨some 1, some 0, 0⟩ : Row)], [⟨some 1, some 0, 5⟩]] =
      ([⟨some 1, some 0, 0⟩, ⟨some 1, some 0, 5⟩], 2) ∧
    rowKey (⟨some 1, some 0, 0⟩ : Row) = rowKey ⟨some 1, some 0, 5⟩ ∧
    (⟨some 1, some 0, 0⟩ : Row) ≠ ⟨some 1, some 0, 5⟩ := by
  refine ⟨rfl, rfl, ?_⟩
  decide

/-- C8 amended: the reassembly stage performs no distinct-key consistency
check: a successful run's output is unconditionally the concatenation of
the deduplicated shard files in file order, and the only other quantity
the Reassembler computes is the total row count. -/
theorem C8_amended (input : List (List Row)) (out : List Row)
    (h : mainOutput input = Except.ok out) :
    out = ((bucket_files input).map dedup_bucket_table).flatten ∧
    concat_parts_to_one ((bucket_files input).map dedup_bucket_table) =
      (out, (((bucket_files input).map dedup_bucket_table).map
        List.length).sum) := by
  rcases (mainOutput_ok_iff input out).mp h with ⟨-, rfl⟩
  exact ⟨rfl, rfl⟩

/-- C8 witness: the amended claim at a concrete run. -/
theorem C8_amended_witness :
    mainOutput [[⟨some 1, some 10, 0⟩]] = Except.ok [⟨some 1, some 10, 0⟩] ∧
    [(⟨some 1, some 10, 0⟩ : Row)] =
      ((bucket_files [[⟨some 1, some 10, 0⟩]]).map dedup_bucket_table).flatten := by
  have h : mainOutput [[⟨some 1, some 10, 0⟩]] =
      Except.ok [⟨some 1, some 10, 0⟩] := by
    simp +decide [mainOutput, bucket_files, route_all, route_row_group,
      routeStep, append_to_bucket, maskB, bucket_id_from_station_id,
      N_BUCKETS, List.range, List.range.loop, dedup_bucket_table,
      drop_duplicates, drop_duplicates_go, rowKey, concat_parts_to_one,
      sort_values, List.mergeSort, keyLe, optLe, optLt]
  exact ⟨h, (C8_amended _ _ h).1⟩

/-- C10: a row with a null `station_id` gets a null bucket id, matches no
equality mask, is routed to no bucket file, and is absent from the final
output; removing all such rows from the input changes nothing — they are
silently dropped, not deduplicated, retained, or reported. -/
theorem C10_null_station_dropped (input : List (List Row)) (r : Row)
    (hr : r ∈ input.flatten) (hnull : r.station_id = none) :
    bucket_id_from_station_id r.station_id = none ∧
    (∀ b, r ∉ bucketContents input b) ∧
    (∀ out, mainOutput input = Except.ok out → r ∉ out) ∧
    mainOutput (input.map (fun rg => rg.filter
      (fun x => !x.station_id.isNone))) = mainOutput input := by
  have hmask : ∀ b, maskB b r = false := by
    intro b
    rw [maskB, decide_eq_false_iff_not, bucket_id_from_station_id, hnull]
    intro hcon
    exact Option.noConfusion hcon
  have hnotmem : ∀ b, r ∉ bucketContents input b := by
    intro b hb
    have := mask_of_mem_bucketContents hb
    rw [hmask b] at this
    exact Bool.noConfusion this
  have hcontents : bucketContents (input.map (fun rg => rg.filter
      (fun x => !x.station_id.isNone))) = bucketContents input := by
    funext b
    rw [bucketContents, bucketContents, List.map_map]
    congr 1
    apply List.map_congr_left
    intro rg _
    show (rg.filter (fun x => !x.station_id.isNone)).filter (maskB b) =
      rg.filter (maskB b)
    rw [List.filter_filter]
    congr 1
    funext x
    by_cases hm : maskB b x
    · have hq : (!x.station_id.isNone) = true := by
        rw [maskB, decide_eq_true_eq, bucket_id_from_station_id] at hm
        cases hx : x.station_id with
        | none =>
          rw [hx] at hm
          exact absurd hm (by simp)
        | some s => simp [hx]
      simp [hm, hq]
    · rw [Bool.not_eq_true] at hm
      simp [hm]
  refine ⟨?_, hnotmem, ?_, ?_⟩
  · rw [bucket_id_from_station_id, hnull]
    rfl
  · intro out hout hrout
    rcases (mainOutput_ok_iff input out).mp hout with ⟨-, rfl⟩
    rcases List.mem_flatten.mp hrout with ⟨part, hpart, hrp⟩
    rcases List.mem_map.mp hpart with ⟨file, hfile, rfl⟩
    rw [bucket_files_eq] at hfile
    rcases List.mem_map.mp hfile with ⟨b, -, rfl⟩
    exact hnotmem b (mem_of_mem_dedup_bucket hrp)
  · rw [mainOutput, mainOutput, bucket_files_eq, bucket_files_eq, hcontents]

/-- C10 witness: a null-station row in a two-row input. -/
theorem C10_witness :
    (⟨none, some 0, 7⟩ : Row) ∈
      ([[⟨none, some 0, 7⟩, ⟨some 1, some 2, 0⟩]] : List (List Row)).flatten ∧
    bucket_id_from_station_id ((⟨none, some 0, 7⟩ : Row)).station_id = none ∧
    (⟨none, some 0, 7⟩ : Row) ∉
      bucketContents [[⟨none, some 0, 7⟩, ⟨some 1, some 2, 0⟩]] 0 ∧
    mainOutput ([[⟨none, some 0, 7⟩, ⟨some 1, some 2, 0⟩]].map
        (fun rg => rg.filter (fun x => !x.station_id.isNone))) =
      mainOutput [[⟨none, some 0, 7⟩, ⟨some 1, some 2, 0⟩]] := by
  have h := C10_null_station_dropped [[⟨none, some 0, 7⟩, ⟨some 1, some 2, 0⟩]]
    ⟨none, some 0, 7⟩ (by decide) rfl
  exact ⟨by decide, h.1, h.2.1 0, h.2.2.2⟩

/-- C2 counterexample: with a null-station row in the input, the run
succeeds but the output's distinct-key count (1) differs from the input's
(2): the null-keyed row is lost though it is no duplicate of any retained
key. -/
theorem C2_counterexample :
    mainOutput [[⟨none, some 0, 0⟩, ⟨some 1, some 2, 0⟩]] =
      Except.ok [⟨some 1, some 2, 0⟩] ∧
    distinct_key_count
      ([[⟨none, some 0, 0⟩, ⟨some 1, some 2, 0⟩]] : List (List Row)).flatten = 2 ∧
    distinct_key_count [(⟨some 1, some 2, 0⟩ : Row)] = 1 := by
  refine ⟨?_, by decide, by decide⟩
  simp +decide [mainOutput, bucket_files, route_all, route_row_group,
    routeStep, append_to_bucket, maskB, bucket_id_from_station_id,
    N_BUCKETS, List.range, List.range.loop, dedup_bucket_table,
    drop_duplicates, drop_duplicates_go, rowKey, concat_parts_to_one,
    sort_values, List.mergeSort, keyLe, optLe, optLt]

/-- C2 amended: for every input all of whose rows carry a non-null
`station_id`, a successful run conserves the distinct Composite Keys
exactly and never grows the row count: no row is lost except as a
duplicate of a retained key. -/
theorem C2_amended (input : List (List Row)) (out : List Row)
    (hnn : ∀ r ∈ input.flatten, r.station_id.isSome)
    (h : mainOutput input = Except.ok out) :
    distinct_key_count out = distinct_key_count input.flatten ∧
    out.length ≤ input.flatten.length := by
  rcases (mainOutput_ok_iff input out).mp h with ⟨-, rfl⟩
  rw [bucket_files_eq, List.map_map]
  set created := (List.range N_BUCKETS).filter
    (fun b => !(bucketContents input b).isEmpty) with hcr
  constructor
  · have hsets : (((created.map
        (dedup_bucket_table ∘ bucketContents input)).flatten.map
          rowKey).toFinset) =
        ((input.flatten.map rowKey).toFinset) := by
      apply Finset.ext
      intro k
      simp only [List.mem_toFinset, List.mem_map]
      constructor
      · rintro ⟨r, hr, rfl⟩
        rcases List.mem_flatten.mp hr with ⟨part, hpart, hrp⟩
        rcases List.mem_map.mp hpart with ⟨b, -, rfl⟩
        exact ⟨r, mem_flatten_of_mem_bucketContents
          (mem_of_mem_dedup_bucket hrp), rfl⟩
      · rintro ⟨r, hr, rfl⟩
        rcases Option.isSome_iff_exists.mp (hnn r hr) with ⟨s, hs⟩
        rcases exists_bucket hs with ⟨B, hBlt, hBm, -⟩
        have hrB : r ∈ bucketContents input B :=
          mem_bucketContents_of_mask hr hBm
        have hBne : bucketContents input B ≠ [] := by
          intro hc
          rw [hc] at hrB
          exact List.not_mem_nil r hrB
        have hBmem : B ∈ created := by
          rw [hcr]
          apply List.mem_filter.mpr
          refine ⟨List.mem_range.mpr hBlt, ?_⟩
          simp [hBne]
        rcases (exists_key_dedup_bucket_iff (bucketContents input B)
            (rowKey r)).mpr ⟨r, hrB, rfl⟩ with ⟨r', hr', hk'⟩
        exact ⟨r', List.mem_flatten.mpr
          ⟨_, List.mem_map.mpr ⟨B, hBmem, rfl⟩, hr'⟩, hk'⟩
    rw [distinct_key_count, distinct_key_count, ← List.card_toFinset,
      ← List.card_toFinset, hsets]
  · rw [List.length_flatten, List.map_map]
    have hstep1 : ((created.map
        (List.length ∘ (dedup_bucket_table ∘ bucketContents input))).sum) ≤
        (created.map (fun b => (bucketContents input b).length)).sum := by
      apply List.sum_le_sum
      intro b _
      show (dedup_bucket_table (bucketContents input b)).length ≤ _
      calc (dedup_bucket_table (bucketContents input b)).length
          ≤ (sort_values (bucketContents input b)).length :=
            (drop_duplicates_sublist _).length_le
        _ = (bucketContents input b).length := by
            rw [sort_values, List.length_mergeSort]
    have hstep2 : (created.map
        (fun b => (bucketContents input b).length)).sum =
        ((List.range N_BUCKETS).map
          (fun b => (bucketContents input b).length)).sum := by
      rw [hcr]
      apply sum_map_filter_eq
      intro b _ hb
      have hb' : (bucketContents input b).isEmpty = true := by
        simpa using hb
      rw [List.isEmpty_iff.mp hb']
      rfl
    have hstep3 : ((List.range N_BUCKETS).map
        (fun b => (bucketContents input b).length)).sum =
        input.flatten.length := by
      rw [List.map_congr_left
        (fun b _ => by rw [bucketContents_eq_filter input b])]
      apply length_filter_partition
      intro r hr
      exact Option.isSome_iff_exists.mp (hnn r hr)
    calc ((created.map
        (List.length ∘ (dedup_bucket_table ∘ bucketContents input))).sum)
        ≤ (created.map (fun b => (bucketContents input b).length)).sum :=
          hstep1
      _ = ((List.range N_BUCKETS).map
          (fun b => (bucketContents input b).length)).sum := hstep2
      _ = input.flatten.length := hstep3

/-- C2 witness: a duplicated-key input with all station ids non-null. -/
theorem C2_amended_witness :
    ((([[⟨some 1, some 2, 3⟩, ⟨some 1, some 2, 4⟩]] :
        List (List Row)).flatten).all (fun r => r.station_id.isSome)) = true ∧
    mainOutput [[⟨some 1, some 2, 3⟩, ⟨some 1, some 2, 4⟩]] =
      Except.ok [⟨some 1, some 2, 3⟩] ∧
    distinct_key_count [(⟨some 1, some 2, 3⟩ : Row)] =
      distinct_key_count
        ([[⟨some 1, some 2, 3⟩, ⟨some 1, some 2, 4⟩]] :
          List (List Row)).flatten ∧
    ([(⟨some 1, some 2, 3⟩ : Row)]).length ≤
      (([[⟨some 1, some 2, 3⟩, ⟨some 1, some 2, 4⟩]] :
        List (List Row)).flatten).length := by
  have hrun : mainOutput [[⟨some 1, some 2, 3⟩, ⟨some 1, some 2, 4⟩]] =
      Except.ok [⟨some 1, some 2, 3⟩] := by
    simp +decide [mainOutput, bucket_files, route_all, route_row_group,
      routeStep, append_to_bucket, maskB, bucket_id_from_station_id,
      N_BUCKETS, List.range, List.range.loop, dedup_bucket_table,
      drop_duplicates, drop_duplicates_go, rowKey, concat_parts_to_one,
      sort_values, List.mergeSort, keyLe, optLe, optLt]
  have hc := C2_amended [[⟨some 1, some 2, 3⟩, ⟨some 1, some 2, 4⟩]]
    [⟨some 1, some 2, 3⟩] (by decide) hrun
  exact ⟨by decide, hrun, hc.1, hc.2⟩

/-- C3 counterexample: the key `(none, some 3)` occurs in the input, but
the output retains no row at all for it — not its first occurrence — so
the claim fails for inputs holding a null-station key. -/
theorem C3_counterexample :
    ([(⟨none, some 3, 9⟩ : Row), ⟨some 1, some 2, 0⟩].filter
        (fun r => decide (rowKey r = (none, some 3)))) = [⟨none, some 3, 9⟩] ∧
    mainOutput [[⟨none, some 3, 9⟩, ⟨some 1, some 2, 0⟩]] =
      Except.ok [⟨some 1, some 2, 0⟩] ∧
    ([(⟨some 1, some 2, 0⟩ : Row)].filter
        (fun r => decide (rowKey r = (none, some 3)))) = [] := by
  refine ⟨by decide, ?_, by decide⟩
  simp +decide [mainOutput, bucket_files, route_all, route_row_group,
    routeStep, append_to_bucket, maskB, bucket_id_from_station_id,
    N_BUCKETS, List.range, List.range.loop, dedup_bucket_table,
    drop_duplicates, drop_duplicates_go, rowKey, concat_parts_to_one,
    sort_values, List.mergeSort, keyLe, optLe, optLt]

/-- C3 amended: for every Composite Key with a non-null `station_id`
occurring in the input, the run retains exactly one row for that key: the
key's first occurrence in the router's ingestion order, with all its
column values. -/
theorem C3_amended (input : List (List Row)) (out : List Row) (s : Int)
    (t : Option Int) (r₀ : Row) (h : mainOutput input = Except.ok out)
    (hfirst : (input.flatten.filter
        (fun r => decide (rowKey r = (some s, t)))).head? = some r₀) :
    out.filter (fun r => decide (rowKey r = (some s, t))) = [r₀] := by
  rcases (mainOutput_ok_iff input out).mp h with ⟨-, rfl⟩
  rw [bucket_files_eq, List.map_map]
  set created := (List.range N_BUCKETS).filter
    (fun b => !(bucketContents input b).isEmpty) with hcr
  have hnz : ((N_BUCKETS : Int)) ≠ 0 := by decide
  have hpos : (0 : Int) < (N_BUCKETS : Int) := by decide
  have hnn : 0 ≤ s % (N_BUCKETS : Int) := Int.emod_nonneg s hnz
  have hlt' : s % (N_BUCKETS : Int) < (N_BUCKETS : Int) :=
    Int.emod_lt_of_pos s hpos
  set B : Nat := (s % (N_BUCKETS : Int)).toNat with hBdef
  have hBlt : B < N_BUCKETS := by omega
  have hmask_of_key : ∀ r : Row, rowKey r = (some s, t) →
      ∀ b : Nat, maskB b r = true ↔ b = B := by
    intro r hr b
    have hs : r.station_id = some s := congrArg Prod.fst hr
    rw [maskB, decide_eq_true_eq, bucket_id_from_station_id, hs,
      Option.map_some']
    constructor
    · intro hsome
      have hb : s % (N_BUCKETS : Int) = ((b : Nat) : Int) :=
        Option.some.inj hsome
      omega
    · rintro rfl
      congr 1
      omega
  have hfl : ∀ b : Nat,
      (bucketContents input b).filter
          (fun r => decide (rowKey r = (some s, t))) =
        if b = B then
          input.flatten.filter (fun r => decide (rowKey r = (some s, t)))
        else [] := by
    intro b
    rw [bucketContents_eq_filter, List.filter_filter]
    by_cases hb : b = B
    · subst hb
      rw [if_pos rfl]
      congr 1
      funext r
      by_cases hkr : rowKey r = (some s, t)
      · rw [(hmask_of_key r hkr B).mpr rfl]
        simp [hkr]
      · simp [hkr]
    · rw [if_neg hb]
      apply List.filter_eq_nil_iff.mpr
      intro r _ hcon
      rw [Bool.and_eq_true, decide_eq_true_eq] at hcon
      exact hb ((hmask_of_key r hcon.1 b).mp hcon.2)
  have hflne : input.flatten.filter
      (fun r => decide (rowKey r = (some s, t))) ≠ [] := by
    intro hc
    rw [hc] at hfirst
    exact Option.noConfusion hfirst
  have hcontB : bucketContents input B ≠ [] := by
    intro hc
    apply hflne
    have := hfl B
    rw [if_pos rfl, hc] at this
    exact this.symm
  have hBcreated : B ∈ created := by
    rw [hcr]
    apply List.mem_filter.mpr
    refine ⟨List.mem_range.mpr hBlt, ?_⟩
    simp [hcontB]
  rw [List.filter_flatten, List.map_map]
  have hunique := flatten_map_eq_of_unique
    ((List.filter (fun r => decide (rowKey r = (some s, t)))) ∘
      (dedup_bucket_table ∘ bucketContents input))
    created ((List.nodup_range _).filter _) B hBcreated ?_
  · rw [hunique]
    show (dedup_bucket_table (bucketContents input B)).filter
      (fun r => decide (rowKey r = (some s, t))) = [r₀]
    rw [filter_key_dedup_bucket, hfl B, if_pos rfl]
    rcases List.head?_eq_some_iff.mp hfirst with ⟨ys, hys⟩
    rw [hys]
    rfl
  · intro b hb hne
    show (dedup_bucket_table (bucketContents input b)).filter
      (fun r => decide (rowKey r = (some s, t))) = []
    rw [filter_key_dedup_bucket, hfl b, if_neg hne]
    rfl

/-- C3 witness: the spec's Scenario 1 — the same key in two chunks with
different payloads; the first occurrence survives. -/
theorem C3_amended_witness :
    mainOutput [[⟨some 1, some 10, 0⟩], [⟨some 1, some 10, 99⟩]] =
      Except.ok [⟨some 1, some 10, 0⟩] ∧
    (([[⟨some 1, some 10, 0⟩], [⟨some 1, some 10, 99⟩]] :
        List (List Row)).flatten.filter
      (fun r => decide (rowKey r = (some 1, some 10)))).head? =
      some ⟨some 1, some 10, 0⟩ ∧
    ([(⟨some 1, some 10, 0⟩ : Row)].filter
      (fun r => decide (rowKey r = (some 1, some 10)))) =
      [⟨some 1, some 10, 0⟩] := by
  have hrun : mainOutput [[⟨some 1, some 10, 0⟩], [⟨some 1, some 10, 99⟩]] =
      Except.ok [⟨some 1, some 10, 0⟩] := by
    simp +decide [mainOutput, bucket_files, route_all, route_row_group,
      routeStep, append_to_bucket, maskB, bucket_id_from_station_id,
      N_BUCKETS, List.range, List.range.loop, dedup_bucket_table,
      drop_duplicates, drop_duplicates_go, rowKey, concat_parts_to_one,
      sort_values, List.mergeSort, keyLe, optLe, optLt]
  exact ⟨hrun, by decide,
    C3_amended [[⟨some 1, some 10, 0⟩], [⟨some 1, some 10, 99⟩]]
      [⟨some 1, some 10, 0⟩] 1 (some 10) ⟨some 1, some 10, 0⟩ hrun (by decide)⟩

/-- C6: every chunk successfully normalized by
`ensure_all_columns_and_cast` has exactly the Target Schema's column list
— same names, same order, same types; every target field absent from the
input becomes an all-null column of the chunk's row count, and every
input column outside the Target Schema is dropped (no output column
carries a non-target name). -/
theorem C6_schema_conformance (t t' : Table)
    (h : ensure_all_columns_and_cast t = Except.ok t') :
    t'.cols.map Col.name = TARGET_COLUMNS ∧
    t'.cols.map Col.dtype = TARGET_FIELDS.map Prod.snd ∧
    t'.nrows = t.nrows ∧
    (∀ c ∈ t'.cols, lookupCol t c.name = none →
      c.data = List.replicate t.nrows Value.vnull) ∧
    (∀ c ∈ t'.cols, c.name ∈ TARGET_COLUMNS) := by
  rw [ensure_all_columns_and_cast] at h
  cases hg : ensure_go t TARGET_FIELDS with
  | error e =>
    rw [hg] at h
    exact absurd h (by simp)
  | ok cs =>
    rw [hg] at h
    have ht' : t' = ⟨t.nrows, cs⟩ := (Except.ok.inj h).symm
    subst ht'
    obtain ⟨h1, h2, h3⟩ := ensure_go_ok t TARGET_FIELDS cs hg
    refine ⟨h1, h2, rfl, h3, ?_⟩
    intro c hc
    have h1' : cs.map Col.name = TARGET_COLUMNS := h1
    rw [← h1']
    exact List.mem_map_of_mem Col.name hc

/-- C6 witness: an input chunk whose only column is outside the schema;
the normalized chunk is the 21 target columns, all synthesized null. -/
theorem C6_witness :
    ensure_all_columns_and_cast
        ⟨1, [⟨"extra_column", PType.int64, [Value.vint 9]⟩]⟩ =
      Except.ok ⟨1, TARGET_FIELDS.map (fun f => ⟨f.1, f.2, [Value.vnull]⟩)⟩ ∧
    (TARGET_FIELDS.map
        (fun f => (⟨f.1, f.2, [Value.vnull]⟩ : Col))).map Col.name =
      TARGET_COLUMNS ∧
    (TARGET_FIELDS.map
        (fun f => (⟨f.1, f.2, [Value.vnull]⟩ : Col))).map Col.dtype =
      TARGET_FIELDS.map Prod.snd := by
  have h : ensure_all_columns_and_cast
      ⟨1, [⟨"extra_column", PType.int64, [Value.vint 9]⟩]⟩ =
      Except.ok ⟨1, TARGET_FIELDS.map (fun f => ⟨f.1, f.2, [Value.vnull]⟩)⟩ :=
    rfl
  have hc := C6_schema_conformance _ _ h
  exact ⟨h, hc.1, hc.2.1⟩

/-- C9 counterexample: two runs failing on the same non-coercible value
in two different fields (and two different chunks) produce the very same
error — the cast failure carries the offending value and the target type
but identifies neither the offending field nor the offending chunk, and
no `SchemaCastError` type exists anywhere in the repository. -/
theorem C9_counterexample :
    ensure_all_columns_and_cast
        ⟨1, [⟨"temperature_2m", PType.float64, [Value.vstr "x"]⟩]⟩ =
      Except.error ⟨Value.vstr "x", PType.float64⟩ ∧
    ensure_all_columns_and_cast
        ⟨1, [⟨"pressure_msl", PType.float64, [Value.vstr "x"]⟩]⟩ =
      Except.error ⟨Value.vstr "x", PType.float64⟩ ∧
    mainB [⟨1, [⟨"temperature_2m", PType.float64, [Value.vstr "x"]⟩]⟩] =
      mainB [⟨1, [⟨"pressure_msl", PType.float64, [Value.vstr "x"]⟩]⟩] ∧
    "temperature_2m" ≠ "pressure_msl" := by
  refine ⟨rfl, rfl, rfl, ?_⟩
  decide

/-- C9 amended: when any part contains a value that cannot be coerced to
its target type, the run aborts with the propagated cast error and the
final output is never produced. -/
theorem C9_cast_failure_aborts (parts : List Table) (p : Table)
    (e : CastErr) (hp : p ∈ parts)
    (he : ensure_all_columns_and_cast p = Except.error e) :
    ∃ e', mainB parts = Except.error e' := by
  rcases process_parts_error hp he with ⟨e', he'⟩
  exact ⟨e', by simp only [mainB, he']⟩

/-- C9 witness: a single part with a non-numeric string in a float64
field aborts the run. -/
theorem C9_witness :
    ensure_all_columns_and_cast
        ⟨1, [⟨"obs_count", PType.int64, [Value.vstr "bad"]⟩]⟩ =
      Except.error ⟨Value.vstr "bad", PType.int64⟩ ∧
    (mainB [⟨1, [⟨"obs_count", PType.int64, [Value.vstr "bad"]⟩]⟩]).isOk =
      false := by
  have he : ensure_all_columns_and_cast
      ⟨1, [⟨"obs_count", PType.int64, [Value.vstr "bad"]⟩]⟩ =
      Except.error ⟨Value.vstr "bad", PType.int64⟩ := rfl
  refine ⟨he, ?_⟩
  rcases C9_cast_failure_aborts
    [⟨1, [⟨"obs_count", PType.int64, [Value.vstr "bad"]⟩]⟩] _ _
    (List.mem_cons_self _ _) he with ⟨e', he'⟩
  rw [he']
  rfl

end Bicing
